import Mathlib

/-!
# Frame header encoder of `ws` (`write.go`)

A shallow embedding of `HeaderSize`, `WriteHeader` and `WriteFrame`.

* Go `byte` values are natural numbers; every conversion to `byte`, `uint16`
  or `uint64` and every shift on a `byte` is written with an explicit `%`.
* `int64` values are integers; a header whose `Length` is a real `int64`
  satisfies `-2^63 ≤ Length ≤ 2^63 - 1`.
* An `io.Writer` is a transition function on an explicit sink state.  What a
  sink observes is read off by wrapping it in `recording`, which appends the
  argument of every `Write` call to a log and otherwise behaves as the
  wrapped sink.
-/

namespace ws

/-! ## Constants -/

/-- Header size upper bound in bytes. -/
def MaxHeaderSize : Nat := 14

/-- Header size lower bound in bytes. -/
def MinHeaderSize : Nat := 2

/-- The most significant bit of a byte, `bit0 = 0x80`. -/
def bit0 : Nat := 0x80

/-- The constant `len7 = int64(125)`. -/
def len7 : Int := 125

/-- The constant `len16 = int64(^(uint16(0)))`. -/
def len16 : Int := Int.ofNat (2 ^ 16 - 1 - 0)

/-- The constant `len64 = int64(^(uint64(0)) >> 1)`. -/
def len64 : Int := Int.ofNat ((2 ^ 64 - 1 - 0) >>> 1)

/-! ## Data model -/

/-- The Go array type `[4]byte`. -/
structure Byte4 where
  b0 : Nat
  b1 : Nat
  b2 : Nat
  b3 : Nat
  deriving DecidableEq, Repr

/-- The slice `a[:]` of a `[4]byte`. -/
def Byte4.toList (a : Byte4) : List Nat := [a.b0, a.b1, a.b2, a.b3]

/-- The built-in `len` on a `[4]byte`. -/
def Byte4.len (_ : Byte4) : Nat := 4

/-- Modelled from the spec: the type `Header` is declared outside `write.go`.
Its fields are the ones `write.go` reads: `Fin bool`, `Rsv byte`,
`OpCode` (a byte-sized opcode), `Masked bool`, `Mask [4]byte`, `Length int64`. -/
structure Header where
  Fin : Bool
  Rsv : Nat
  OpCode : Nat
  Masked : Bool
  Mask : Byte4
  Length : Int
  deriving DecidableEq, Repr

/-- Modelled from the spec: the type `Frame` is declared outside `write.go`;
it is a header together with the payload bytes. -/
structure Frame where
  Header : Header
  Payload : List Nat
  deriving DecidableEq, Repr

/-- Modelled from the spec: the error value `ErrHeaderLengthUnexpected` is
declared outside `write.go`.  A Go `error` is either that value or some other
error, identified by a number; `nil` is `none : Option Error`. -/
inductive Error where
  | ErrHeaderLengthUnexpected
  | other (code : Nat)
  deriving DecidableEq, Repr

/-- An `io.Writer` over a sink state `σ`: `Write p` returns the new sink state,
the number of bytes it reports as written and an error (or `none` for `nil`). -/
structure Writer (σ : Type) where
  Write : σ → List Nat → σ × Int × Option Error

/-- A sink that behaves as `w` and logs the argument of every `Write` call. -/
def recording {σ : Type} (w : Writer σ) : Writer (σ × List (List Nat)) where
  Write := fun st p =>
    let r := w.Write st.1 p
    ((r.1, st.2 ++ [p]), r.2)

/-- A sink accepts every write when `Write` never returns an error. -/
def Accepting {σ : Type} (w : Writer σ) : Prop :=
  ∀ s p, (w.Write s p).2.2 = none

/-! ## Library operations used by `write.go` -/

/-- The conversion `byte(x)` of an `int64`. -/
def byteOfInt (x : Int) : Nat := (x % 256).toNat

/-- The conversion `uint16(x)` of an `int64`. -/
def uint16OfInt (x : Int) : Nat := (x % 2 ^ 16).toNat

/-- The conversion `uint64(x)` of an `int64`. -/
def uint64OfInt (x : Int) : Nat := (x % 2 ^ 64).toNat

/-- The call `binary.BigEndian.PutUint16(b[off:off+2], v)`. -/
def PutUint16 (b : List Nat) (off : Nat) (v : Nat) : List Nat :=
  let b := b.set off ((v >>> 8) % 256)
  b.set (off + 1) (v % 256)

/-- The call `binary.BigEndian.PutUint64(b[off:off+8], v)`. -/
def PutUint64 (b : List Nat) (off : Nat) (v : Nat) : List Nat :=
  let b := b.set off ((v >>> 56) % 256)
  let b := b.set (off + 1) ((v >>> 48) % 256)
  let b := b.set (off + 2) ((v >>> 40) % 256)
  let b := b.set (off + 3) ((v >>> 32) % 256)
  let b := b.set (off + 4) ((v >>> 24) % 256)
  let b := b.set (off + 5) ((v >>> 16) % 256)
  let b := b.set (off + 6) ((v >>> 8) % 256)
  b.set (off + 7) (v % 256)

/-- The built-in `copy(dst[off:], src)`: it copies `min (len dst - off) (len src)`
bytes and returns the updated destination with the number of bytes copied. -/
def copy (dst : List Nat) (off : Nat) (src : List Nat) : List Nat × Nat :=
  let k := min (dst.length - off) src.length
  (dst.take off ++ src.take k ++ dst.drop (off + k), k)

/-! ## The functions of `write.go` -/

/-- `HeaderSize` returns number of bytes that are needed to encode given header. -/
def HeaderSize (h : Header) : Int :=
  let base : Option Int :=
    if h.Length < 126 then some 2
    else if h.Length ≤ len16 then some 4
    else if h.Length ≤ len64 then some 10
    else none
  match base with
  | none => -1
  | some n => if h.Masked then n + (h.Mask.len : Int) else n

/-- The first statements of `WriteHeader`: the zeroed 14-byte buffer `bts` with
`Fin`, `Rsv` and `OpCode` or-ed into byte 0. -/
def headerByte0 (h : Header) : List Nat :=
  let bts := List.replicate MaxHeaderSize 0
  let bts := if h.Fin then bts.set 0 (bts.getD 0 0 ||| bit0) else bts
  let bts := bts.set 0 (bts.getD 0 0 ||| (h.Rsv <<< 4) % 256)
  bts.set 0 (bts.getD 0 0 ||| h.OpCode % 256)

/-- The `switch` of `WriteHeader`: the buffer with the length field written and
the count `n`, or `none` on the `default` branch. -/
def headerLength (h : Header) (bts : List Nat) : Option (List Nat × Nat) :=
  if h.Length ≤ len7 then
    some (bts.set 1 (byteOfInt h.Length), 2)
  else if h.Length ≤ len16 then
    some (PutUint16 (bts.set 1 126) 2 (uint16OfInt h.Length), 4)
  else if h.Length ≤ len64 then
    some (PutUint64 (bts.set 1 127) 2 (uint64OfInt h.Length), 10)
  else none

/-- The `if h.Masked` statement of `WriteHeader`. -/
def headerMask (h : Header) (bts : List Nat) (n : Nat) : List Nat × Nat :=
  if h.Masked then
    let bts := bts.set 1 (bts.getD 1 0 ||| bit0)
    let r := copy bts n h.Mask.toList
    (r.1, n + r.2)
  else (bts, n)

/-- Everything `WriteHeader` does before the `Write` call: the buffer `bts` and
the count `n`, or `none` where it returns `ErrHeaderLengthUnexpected`. -/
def headerBuf (h : Header) : Option (List Nat × Nat) :=
  match headerLength h (headerByte0 h) with
  | none => none
  | some (bts, n) => some (headerMask h bts n)

/-- `WriteHeader` writes header binary representation into `w`.  It returns the
sink state after the call and the error. -/
def WriteHeader {σ : Type} (w : Writer σ) (s : σ) (h : Header) : σ × Option Error :=
  match headerBuf h with
  | none => (s, some Error.ErrHeaderLengthUnexpected)
  | some (bts, n) =>
    let r := w.Write s (bts.take n)
    (r.1, r.2.2)

/-- `WriteFrame` writes frame binary representation into `w`. -/
def WriteFrame {σ : Type} (w : Writer σ) (s : σ) (f : Frame) : σ × Option Error :=
  let r := WriteHeader w s f.Header
  match r.2 with
  | some err => (r.1, some err)
  | none =>
    let r2 := w.Write r.1 f.Payload
    (r2.1, r2.2.2)

/-- A sink without state that accepts every write in full. -/
def okSink : Writer Unit where
  Write := fun _ p => ((), (p.length : Int), none)

/-- A sink without state that rejects every write with error `other 7`. -/
def failSink : Writer Unit where
  Write := fun _ _ => ((), 0, some (Error.other 7))

/-! ## The wire layout, written out -/

/-- Byte 0 as `WriteHeader` computes it, starting from a zero byte. -/
def byte0 (h : Header) : Nat :=
  ((if h.Fin then 0 ||| bit0 else 0) ||| (h.Rsv <<< 4) % 256) ||| h.OpCode % 256

/-- The argument of the `Write` call of `WriteHeader`, or `none` where
`WriteHeader` returns before writing. -/
def encode (h : Header) : Option (List Nat) :=
  (headerBuf h).map (fun r => r.1.take r.2)

/-- The eight bytes of `v` as `PutUint64` lays them out. -/
def be64 (v : Nat) : List Nat :=
  [(v >>> 56) % 256, (v >>> 48) % 256, (v >>> 40) % 256, (v >>> 32) % 256,
   (v >>> 24) % 256, (v >>> 16) % 256, (v >>> 8) % 256, v % 256]

/-- The value of a byte sequence read as a big-endian base-256 numeral. -/
def beValue (bs : List Nat) : Nat :=
  bs.foldl (fun acc b => acc * 256 + b) 0

/-- The header size a reader derives from byte 1 alone, following the wire
format table: 2 bytes, plus 2 or 8 extended-length bytes when the
length-control value (`byte1 AND 0x7F`) is 126 or 127, plus 4 mask-key bytes
when bit 7 of byte 1 is set. -/
def wireSize (b1 : Nat) : Nat :=
  2 + (if b1 &&& 0x7F = 126 then 2 else if b1 &&& 0x7F = 127 then 8 else 0)
    + (if b1.testBit 7 then 4 else 0)

/-- A reference decoder of the wire format table: byte 0 holds FIN (bit 7),
RSV (bits 6-4) and the opcode (bits 3-0); byte 1 holds MASK (bit 7) and the
length-control value (bits 6-0), where 126 and 127 announce a 16-bit and a
64-bit big-endian extended length; the 4-byte mask key follows when MASK is
set.  A header decoded without a mask key gets the zero key. -/
def refDecode (p : List Nat) : Header :=
  let b0 := p.getD 0 0
  let b1 := p.getD 1 0
  let ctl := b1 % 128
  let ext := if ctl = 126 then 2 else if ctl = 127 then 8 else 0
  let key := p.drop (2 + ext)
  { Fin := b0.testBit 7
    Rsv := b0 / 16 % 8
    OpCode := b0 % 16
    Masked := b1.testBit 7
    Mask := if b1.testBit 7 then ⟨key.getD 0 0, key.getD 1 0, key.getD 2 0, key.getD 3 0⟩
            else ⟨0, 0, 0, 0⟩
    Length := if ext = 0 then (ctl : Int) else (beValue ((p.drop 2).take ext) : Int) }

/-! ## Auxiliary lemmas -/

theorem len7_eq : len7 = 125 := rfl
theorem len16_eq : len16 = 65535 := by decide
theorem len64_eq : len64 = 9223372036854775807 := by decide

theorem headerByte0_eq (h : Header) :
    headerByte0 h = byte0 h :: List.replicate 13 0 := by
  unfold headerByte0 byte0 MaxHeaderSize
  cases h.Fin <;> simp [List.replicate]

theorem encode_small (h : Header) (hl : h.Length ≤ 125) :
    encode h = some (byte0 h ::
      (if h.Masked then [byteOfInt h.Length ||| bit0] ++ h.Mask.toList
       else [byteOfInt h.Length])) := by
  unfold encode headerBuf headerLength headerMask
  rw [headerByte0_eq, len7_eq]
  simp only [hl, if_true]
  cases h.Masked <;> simp [List.replicate, copy, Byte4.toList]

theorem encode_medium (h : Header) (h1 : 125 < h.Length) (h2 : h.Length ≤ 65535) :
    encode h = some (byte0 h ::
      (if h.Masked then
        [126 ||| bit0, (uint16OfInt h.Length >>> 8) % 256, uint16OfInt h.Length % 256]
          ++ h.Mask.toList
       else [126, (uint16OfInt h.Length >>> 8) % 256, uint16OfInt h.Length % 256])) := by
  unfold encode headerBuf headerLength headerMask
  rw [headerByte0_eq, len7_eq, len16_eq]
  simp only [not_le.mpr h1, h2, if_true, if_false]
  cases h.Masked <;> simp [List.replicate, copy, Byte4.toList, PutUint16]

theorem encode_large (h : Header) (h1 : 65535 < h.Length)
    (h2 : h.Length ≤ 9223372036854775807) :
    encode h = some (byte0 h ::
      (if h.Masked then
        (127 ||| bit0) :: be64 (uint64OfInt h.Length) ++ h.Mask.toList
       else 127 :: be64 (uint64OfInt h.Length))) := by
  have h0 : ¬ h.Length ≤ 125 := by omega
  unfold encode headerBuf headerLength headerMask
  rw [headerByte0_eq, len7_eq, len16_eq, len64_eq]
  simp only [not_le.mpr h1, h0, h2, if_true, if_false]
  cases h.Masked <;> simp [List.replicate, copy, Byte4.toList, PutUint64, be64]

theorem encode_none (h : Header) (h2 : 9223372036854775807 < h.Length) :
    encode h = none := by
  have h0 : ¬ h.Length ≤ 125 := by omega
  have h1 : ¬ h.Length ≤ 65535 := by omega
  unfold encode headerBuf headerLength
  rw [len7_eq, len16_eq, len64_eq]
  simp only [not_le.mpr h2, h0, h1, if_false]
  rfl

theorem WriteHeader_eq {σ : Type} (w : Writer σ) (s : σ) (h : Header) :
    WriteHeader w s h =
      match encode h with
      | none => (s, some Error.ErrHeaderLengthUnexpected)
      | some p => ((w.Write s p).1, (w.Write s p).2.2) := by
  unfold WriteHeader encode
  cases headerBuf h <;> rfl

theorem recording_WriteHeader {σ : Type} (w : Writer σ) (s : σ) (log : List (List Nat))
    (h : Header) :
    WriteHeader (recording w) (s, log) h =
      (((WriteHeader w s h).1, log ++ (encode h).toList), (WriteHeader w s h).2) := by
  rw [WriteHeader_eq, WriteHeader_eq]
  cases encode h <;> simp [recording]

theorem recording_WriteFrame {σ : Type} (w : Writer σ) (s : σ) (log : List (List Nat))
    (f : Frame) :
    WriteFrame (recording w) (s, log) f =
      (((WriteFrame w s f).1,
        log ++ (encode f.Header).toList ++
          (if (WriteHeader w s f.Header).2 = none then [f.Payload] else [])),
       (WriteFrame w s f).2) := by
  unfold WriteFrame
  rw [recording_WriteHeader]
  cases hr : (WriteHeader w s f.Header).2 <;> simp [recording, hr]

theorem HeaderSize_eq (h : Header) (h2 : h.Length ≤ 2 ^ 63 - 1) :
    HeaderSize h =
      (if h.Length ≤ 125 then 2 else if h.Length ≤ 65535 then 4 else 10)
        + (if h.Masked then 4 else 0) := by
  unfold HeaderSize
  rw [len16_eq, len64_eq]
  by_cases a : h.Length ≤ 125
  · have a1 : h.Length < 126 := by omega
    cases h.Masked <;> simp [a, a1, Byte4.len]
  · have a1 : ¬ h.Length < 126 := by omega
    by_cases b : h.Length ≤ 65535
    · cases h.Masked <;> simp [a, a1, b, Byte4.len]
    · have c : h.Length ≤ 9223372036854775807 := by omega
      cases h.Masked <;> simp [a, a1, b, c, Byte4.len]

theorem encode_length (h : Header) (h2 : h.Length ≤ 2 ^ 63 - 1) :
    ∃ p, encode h = some p ∧ (p.length : Int) = HeaderSize h := by
  rw [HeaderSize_eq h h2]
  by_cases a : h.Length ≤ 125
  · refine ⟨_, encode_small h a, ?_⟩
    cases h.Masked <;> simp [a, Byte4.toList]
  · by_cases b : h.Length ≤ 65535
    · refine ⟨_, encode_medium h (by omega) b, ?_⟩
      cases h.Masked <;> simp [a, b, Byte4.toList]
    · refine ⟨_, encode_large h (by omega) (by omega), ?_⟩
      cases h.Masked <;> simp [a, b, Byte4.toList, be64]

theorem byte0_val (h : Header) (hr : h.Rsv ≤ 7) (ho : h.OpCode ≤ 15) :
    byte0 h = (if h.Fin then 128 else 0) + 16 * h.Rsv + h.OpCode ∧
    byte0 h = ((if h.Fin then 0x80 else 0) ||| (h.Rsv * 16)) ||| h.OpCode := by
  obtain ⟨f, r, o, m, k, l⟩ := h
  simp only [byte0, bit0] at *
  interval_cases r <;> interval_cases o <;> cases f <;> simp

theorem encode_head (h : Header) (h2 : h.Length ≤ 2 ^ 63 - 1) :
    ∃ p, encode h = some p ∧ p.getD 0 0 = byte0 h := by
  by_cases a : h.Length ≤ 125
  · exact ⟨_, encode_small h a, rfl⟩
  · by_cases b : h.Length ≤ 65535
    · exact ⟨_, encode_medium h (by omega) b, rfl⟩
    · exact ⟨_, encode_large h (by omega) (by omega), rfl⟩

theorem or_bit0 (x : Nat) (hx : x < 128) : x ||| bit0 = x + 128 := by
  have key : ∀ y : Fin 128, y.val ||| 128 = y.val + 128 := by decide
  exact key ⟨x, hx⟩

theorem byteOfInt_small (x : Int) (h0 : 0 ≤ x) (h1 : x ≤ 125) :
    (byteOfInt x : Int) = x ∧ byteOfInt x < 128 := by
  unfold byteOfInt; omega

theorem be16_value (x : Int) (h0 : 0 ≤ x) (h1 : x ≤ 65535) :
    ((256 * ((uint16OfInt x >>> 8) % 256) + uint16OfInt x % 256 : Nat) : Int) = x := by
  unfold uint16OfInt
  rw [Nat.shiftRight_eq_div_pow]
  omega

theorem be64_value (x : Int) (h0 : 0 ≤ x) (h1 : x ≤ 2 ^ 63 - 1) :
    (beValue (be64 (uint64OfInt x)) : Int) = x := by
  unfold uint64OfInt beValue be64
  simp only [List.foldl, Nat.shiftRight_eq_div_pow]
  omega

theorem be64_bytes (v : Nat) : (be64 v).length = 8 ∧ ∀ b ∈ be64 v, b < 256 := by
  unfold be64
  refine ⟨rfl, ?_⟩
  intro b hb
  simp only [List.mem_cons, List.mem_singleton, List.not_mem_nil, or_false] at hb
  rcases hb with h | h | h | h | h | h | h | h <;> rw [h] <;> exact Nat.mod_lt _ (by norm_num)

theorem log_of_encode {σ : Type} (w : Writer σ) (s : σ) (h : Header) (p : List Nat)
    (hp : encode h = some p) :
    (WriteHeader (recording w) (s, []) h).1.2 = [p] := by
  simp [recording_WriteHeader, hp]

theorem encode_masked (h : Header) (h0 : 0 ≤ h.Length) (h2 : h.Length ≤ 2 ^ 63 - 1) :
    ∃ u, encode { h with Masked := false } = some u ∧ u.getD 1 0 < 128 ∧
      encode { h with Masked := true } = some (u.set 1 (u.getD 1 0 ||| bit0) ++ h.Mask.toList) := by
  by_cases a : h.Length ≤ 125
  · refine ⟨_, encode_small { h with Masked := false } a, ?_, ?_⟩
    · exact (byteOfInt_small h.Length h0 a).2
    · rw [encode_small { h with Masked := true } a]; simp [byte0]
  · by_cases b : h.Length ≤ 65535
    · refine ⟨_, encode_medium { h with Masked := false } (by simp; omega) b, ?_, ?_⟩
      · simp
      · rw [encode_medium { h with Masked := true } (by simp; omega) b]; simp [byte0]
    · refine ⟨_, encode_large { h with Masked := false } (by simp; omega) (by simp; omega),
        ?_, ?_⟩
      · simp
      · rw [encode_large { h with Masked := true } (by simp; omega) (by simp; omega)]
        simp [byte0]

theorem headerBuf_some (h : Header) (h2 : h.Length ≤ 2 ^ 63 - 1) :
    ∃ bts n, headerBuf h = some (bts, n) ∧ bts.length = MaxHeaderSize ∧
      (n : Int) = HeaderSize h := by
  rw [HeaderSize_eq h h2]
  unfold headerBuf headerLength headerMask MaxHeaderSize
  rw [headerByte0_eq, len7_eq, len16_eq, len64_eq]
  by_cases a : h.Length ≤ 125
  · cases hm : h.Masked <;>
      simp [a, hm, List.replicate, copy, Byte4.toList] <;>
      exact ⟨_, _, ⟨rfl, rfl⟩, rfl, rfl⟩
  · by_cases b : h.Length ≤ 65535
    · cases hm : h.Masked <;>
        simp [a, b, hm, List.replicate, copy, Byte4.toList, PutUint16] <;>
        exact ⟨_, _, ⟨rfl, rfl⟩, rfl, rfl⟩
    · have c : h.Length ≤ 9223372036854775807 := by omega
      cases hm : h.Masked <;>
        simp [a, b, c, hm, List.replicate, copy, Byte4.toList, PutUint64] <;>
        exact ⟨_, _, ⟨rfl, rfl⟩, rfl, rfl⟩

theorem encode_mask_irrelevant (h : Header) (m : Byte4) (hm : h.Masked = false) :
    encode { h with Mask := m } = encode h := by
  unfold encode headerBuf headerMask headerLength headerByte0
  simp [hm]

theorem encode_isSome (h : Header) : (encode h).isSome = true ↔ h.Length ≤ 2 ^ 63 - 1 := by
  by_cases a : h.Length ≤ 2 ^ 63 - 1
  · obtain ⟨p, hp, _⟩ := encode_length h a
    rw [hp]
    exact ⟨fun _ => a, fun _ => rfl⟩
  · rw [encode_none h (by omega)]
    exact ⟨fun c => by simp at c, fun c => absurd c a⟩

theorem HeaderSize_invalid (h : Header) : HeaderSize h = -1 ↔ ¬ h.Length ≤ 2 ^ 63 - 1 := by
  by_cases a : h.Length ≤ 2 ^ 63 - 1
  · rw [HeaderSize_eq h a]
    simp only [a, not_true_eq_false, iff_false]
    split_ifs <;> omega
  · have b : ¬ h.Length < 126 := by omega
    have c : ¬ h.Length ≤ 65535 := by omega
    have d : ¬ h.Length ≤ 9223372036854775807 := by omega
    unfold HeaderSize
    rw [len16_eq, len64_eq]
    simp [a, b, c, d]

theorem lor_mod_two_pow (a b n : Nat) : (a ||| b) % 2 ^ n = a % 2 ^ n ||| b % 2 ^ n := by
  apply Nat.eq_of_testBit_eq
  intro i
  simp [Nat.testBit_mod_two_pow, Nat.testBit_or, Bool.and_or_distrib_left]

theorem lor_div_two_pow (a b n : Nat) : (a ||| b) / 2 ^ n = a / 2 ^ n ||| b / 2 ^ n := by
  simp only [← Nat.shiftRight_eq_div_pow]
  apply Nat.eq_of_testBit_eq
  intro i
  simp [Nat.testBit_shiftRight, Nat.testBit_or]

theorem byte0_low (h : Header) : byte0 h % 16 = h.OpCode % 16 := by
  have e := lor_mod_two_pow
  have r : (h.Rsv <<< 4) % 256 % 16 = 0 := by
    rw [Nat.shiftLeft_eq]; omega
  have f : (if h.Fin then 0 ||| bit0 else 0) % 16 = 0 := by
    cases h.Fin <;> simp [bit0]
  have o : h.OpCode % 256 % 16 = h.OpCode % 16 := by omega
  unfold byte0
  rw [show (16 : Nat) = 2 ^ 4 from rfl, e, e, ← show (16 : Nat) = 2 ^ 4 from rfl, r, f, o]
  simp

theorem byte0_high (h : Header) :
    byte0 h / 16 = ((if h.Fin then 8 else 0) ||| h.Rsv % 16) ||| (h.OpCode % 256 / 16) := by
  have e := lor_div_two_pow
  have r : (h.Rsv <<< 4) % 256 / 16 = h.Rsv % 16 := by
    rw [Nat.shiftLeft_eq]; omega
  have f : (if h.Fin then 0 ||| bit0 else 0) / 16 = (if h.Fin then 8 else 0) := by
    cases h.Fin <;> simp [bit0]
  unfold byte0
  rw [show (16 : Nat) = 2 ^ 4 from rfl, e, e, ← show (16 : Nat) = 2 ^ 4 from rfl, r, f]

theorem fin_rsv_bits (f : Bool) (r : Nat) (hr : r < 16) :
    ((if f then 8 else 0) ||| r) % 8 = r % 8 ∧ ((if f then 8 else 0) ||| r) < 16 ∧
    (8 ≤ ((if f then 8 else 0) ||| r) ↔ f = true ∨ 8 ≤ r) := by
  have key : ∀ (g : Bool) (y : Fin 16),
      ((if g then 8 else 0) ||| y.val) % 8 = y.val % 8 ∧ ((if g then 8 else 0) ||| y.val) < 16 ∧
      (8 ≤ ((if g then 8 else 0) ||| y.val) ↔ g = true ∨ 8 ≤ y.val) := by decide
  exact key f ⟨r, hr⟩

theorem encode_layout (h : Header) (h0 : 0 ≤ h.Length) (h2 : h.Length ≤ 2 ^ 63 - 1) :
    ∃ p, encode h = some p ∧ (p.length : Int) = HeaderSize h ∧
      p.getD 0 0 = byte0 h ∧
      p.getD 1 0 / 128 = (if h.Masked then 1 else 0) ∧
      (h.Length ≤ 125 →
        ((p.getD 1 0 % 128 : Nat) : Int) = h.Length ∧
        p.drop 2 = (if h.Masked then h.Mask.toList else [])) ∧
      (125 < h.Length → h.Length ≤ 65535 →
        p.getD 1 0 % 128 = 126 ∧
        ((256 * p.getD 2 0 + p.getD 3 0 : Nat) : Int) = h.Length ∧
        (p.drop 2).take 2 = [p.getD 2 0, p.getD 3 0] ∧
        p.drop 4 = (if h.Masked then h.Mask.toList else [])) ∧
      (65535 < h.Length →
        p.getD 1 0 % 128 = 127 ∧
        (beValue ((p.drop 2).take 8) : Int) = h.Length ∧
        p.getD 2 0 < 128 ∧
        p.drop 10 = (if h.Masked then h.Mask.toList else [])) := by
  obtain ⟨p, hp, hlen⟩ := encode_length h h2
  refine ⟨p, hp, hlen, ?_⟩
  by_cases a : h.Length ≤ 125
  · have e := Option.some.inj (hp.symm.trans (encode_small h a))
    obtain ⟨v, lt⟩ := byteOfInt_small h.Length h0 a
    refine ⟨by rw [e]; rfl, ?_, fun _ => ?_, fun c => absurd a (by omega),
      fun c => absurd a (by omega)⟩ <;> rw [e] <;> cases h.Masked <;>
      simp [or_bit0 _ lt] <;> omega
  · by_cases b : h.Length ≤ 65535
    · have e := Option.some.inj (hp.symm.trans (encode_medium h (by omega) b))
      have v := be16_value h.Length h0 b
      refine ⟨by rw [e]; rfl, ?_, fun c => absurd c a, fun _ _ => ?_,
        fun c => absurd b (by omega)⟩ <;> rw [e] <;> cases h.Masked <;>
        simp [or_bit0 126 (by norm_num)] <;> exact v
    · have e := Option.some.inj (hp.symm.trans (encode_large h (by omega) (by omega)))
      have v := be64_value h.Length h0 h2
      obtain ⟨l8, _⟩ := be64_bytes (uint64OfInt h.Length)
      have t : (be64 (uint64OfInt h.Length) ++ h.Mask.toList).take 8
          = be64 (uint64OfInt h.Length) := by
        rw [List.take_append_of_le_length (by omega), List.take_of_length_le (by omega)]
      have d : (be64 (uint64OfInt h.Length) ++ h.Mask.toList).drop 8 = h.Mask.toList := by
        rw [← l8, List.drop_left]
      have top : (be64 (uint64OfInt h.Length)).getD 0 0 < 128 := by
        unfold be64 uint64OfInt
        simp only [List.getD_cons_zero, Nat.shiftRight_eq_div_pow]
        omega
      have top2 : (be64 (uint64OfInt h.Length) ++ h.Mask.toList).getD 0 0 < 128 := by
        rw [List.getD_append _ _ _ _ (by omega)]; exact top
      refine ⟨by rw [e]; rfl, ?_, fun c => absurd c a, fun _ c => absurd c b, fun _ => ?_⟩
      · rw [e]; cases h.Masked <;> simp [or_bit0 127 (by norm_num)]
      · rw [e]
        cases h.Masked
        · simp only [Bool.false_eq_true, if_false, List.getD_cons_succ, List.getD_cons_zero,
            List.drop_succ_cons, List.drop_zero, List.take_of_length_le (le_of_eq l8),
            List.drop_of_length_le (le_of_eq l8)]
          exact ⟨by norm_num, v, top, trivial⟩
        · simp only [if_true, List.getD_cons_succ, List.getD_cons_zero, List.cons_append,
            List.drop_succ_cons, List.drop_zero, t, d, or_bit0 127 (by norm_num)]
          exact ⟨by norm_num, v, top2, trivial⟩

theorem and_7F (b : Nat) : b &&& 0x7F = b % 128 :=
  Nat.and_pow_two_sub_one_eq_mod b 7

theorem testBit7 (b : Nat) : b.testBit 7 = decide (b / 128 % 2 = 1) :=
  Nat.testBit_to_div_mod

theorem encode_wireSize (h : Header) (h0 : 0 ≤ h.Length) (h2 : h.Length ≤ 2 ^ 63 - 1) :
    ∃ p, encode h = some p ∧ p.length = wireSize (p.getD 1 0) ∧ 2 ≤ p.length := by
  obtain ⟨p, hp, hlen, _, hm, t1, t2, t3⟩ := encode_layout h h0 h2
  rw [HeaderSize_eq h h2] at hlen
  have tb : (p.getD 1 0).testBit 7 = h.Masked := by
    rw [testBit7, hm]
    cases h.Masked <;> simp
  refine ⟨p, hp, ?_, ?_⟩
  · unfold wireSize
    rw [and_7F, tb]
    by_cases a : h.Length ≤ 125
    · have c := (t1 a).1
      have n1 : ¬ p.getD 1 0 % 128 = 126 := by omega
      have n2 : ¬ p.getD 1 0 % 128 = 127 := by omega
      rw [if_neg n1, if_neg n2]
      split_ifs at hlen ⊢ <;> omega
    · by_cases b : h.Length ≤ 65535
      · rw [if_pos (t2 (by omega) b).1]
        split_ifs at hlen ⊢ <;> omega
      · have c := (t3 (by omega)).1
        have n1 : ¬ p.getD 1 0 % 128 = 126 := by omega
        rw [if_neg n1, if_pos c]
        split_ifs at hlen ⊢ <;> omega
  · split_ifs at hlen <;> omega

theorem byte0_fields (h : Header) (hr : h.Rsv ≤ 7) (ho : h.OpCode ≤ 15) :
    (byte0 h).testBit 7 = h.Fin ∧ byte0 h / 16 % 8 = h.Rsv ∧ byte0 h % 16 = h.OpCode := by
  obtain ⟨v, _⟩ := byte0_val h hr ho
  rw [testBit7, v]
  cases h.Fin <;> simp <;> omega

theorem mask_of_drop (k : List Nat) (m : Byte4) (hk : k = m.toList) :
    (⟨k.getD 0 0, k.getD 1 0, k.getD 2 0, k.getD 3 0⟩ : Byte4) = m := by
  subst hk
  rfl

theorem refDecode_encode (h : Header) (hr : h.Rsv ≤ 7) (ho : h.OpCode ≤ 15)
    (h0 : 0 ≤ h.Length) (h2 : h.Length ≤ 2 ^ 63 - 1) :
    ∃ p, encode h = some p ∧
      refDecode p = { h with Mask := if h.Masked then h.Mask else ⟨0, 0, 0, 0⟩ } := by
  obtain ⟨p, hp, _, hb, hm, t1, t2, t3⟩ := encode_layout h h0 h2
  obtain ⟨f1, f2, f3⟩ := byte0_fields h hr ho
  have tb : (p.getD 1 0).testBit 7 = h.Masked := by
    rw [testBit7, hm]
    cases h.Masked <;> simp
  refine ⟨p, hp, ?_⟩
  obtain ⟨f, r, o, m, k, l⟩ := h
  simp only [refDecode, Header.mk.injEq, hb, tb] at *
  refine ⟨f1, f2, f3, trivial, ?_, ?_⟩
  · by_cases a : l ≤ 125
    · have c := (t1 a).1
      have n1 : ¬ p.getD 1 0 % 128 = 126 := by omega
      have n2 : ¬ p.getD 1 0 % 128 = 127 := by omega
      rw [if_neg n1, if_neg n2]
      cases m
      · rfl
      · simp only [if_true] at *
        exact mask_of_drop _ _ (t1 a).2
    · by_cases b : l ≤ 65535
      · rw [if_pos (t2 (by omega) b).1]
        cases m
        · rfl
        · simp only [if_true] at *
          exact mask_of_drop _ _ (t2 (by omega) b).2.2.2
      · have c := (t3 (by omega)).1
        have n1 : ¬ p.getD 1 0 % 128 = 126 := by omega
        rw [if_neg n1, if_pos c]
        cases m
        · rfl
        · simp only [if_true] at *
          exact mask_of_drop _ _ (t3 (by omega)).2.2.2
  · by_cases a : l ≤ 125
    · have c := (t1 a).1
      have n1 : ¬ p.getD 1 0 % 128 = 126 := by omega
      have n2 : ¬ p.getD 1 0 % 128 = 127 := by omega
      rw [if_neg n1, if_neg n2]
      simpa using c
    · by_cases b : l ≤ 65535
      · obtain ⟨c, v, t, _⟩ := t2 (by omega) b
        rw [if_pos c, t]
        simp only [beValue, List.foldl]
        rw [← v]
        simp
        ring
      · obtain ⟨c, v, _, _⟩ := t3 (by omega)
        have n1 : ¬ p.getD 1 0 % 128 = 126 := by omega
        rw [if_neg n1, if_pos c]
        simpa using v

/-! ## The claims -/

/-- C1: for every header with `0 ≤ Length ≤ 2^63 - 1` (any other fields) and
every sink, the byte slice `WriteHeader` passes to the sink has length exactly
`HeaderSize h`. -/
theorem WriteHeader_length_eq_HeaderSize {σ : Type} (w : Writer σ) (s : σ) (h : Header)
    (h0 : 0 ≤ h.Length) (h2 : h.Length ≤ 2 ^ 63 - 1) :
    ∃ p, (WriteHeader (recording w) (s, []) h).1.2 = [p] ∧
      (p.length : Int) = HeaderSize h := by
  have _ := h0
  obtain ⟨p, hp, hlen⟩ := encode_length h h2
  exact ⟨p, by simp [recording_WriteHeader, hp], hlen⟩

theorem WriteHeader_length_eq_HeaderSize_witness :
    (0 : Int) ≤ 70000 ∧ (70000 : Int) ≤ 2 ^ 63 - 1 ∧
    ∃ p, (WriteHeader (recording failSink) ((), [])
            ⟨true, 5, 9, true, ⟨1, 2, 3, 4⟩, 70000⟩).1.2 = [p] ∧
      (p.length : Int) = HeaderSize ⟨true, 5, 9, true, ⟨1, 2, 3, 4⟩, 70000⟩ :=
  ⟨by decide, by decide,
    WriteHeader_length_eq_HeaderSize failSink () ⟨true, 5, 9, true, ⟨1, 2, 3, 4⟩, 70000⟩
      (by decide) (by decide)⟩

/-- C2: for every header with `Length ≥ 0`, `HeaderSize h` is the base size
(2 for `Length ≤ 125`, 4 for `125 < Length ≤ 65535`, 10 for
`65535 < Length ≤ 2^63 - 1`) plus 4 when `Masked`; the boundaries are
125 -> 2, 126 -> 4, 65535 -> 4, 65536 -> 10. -/
theorem HeaderSize_tiers (h : Header) (h0 : 0 ≤ h.Length) (h2 : h.Length ≤ 2 ^ 63 - 1) :
    (h.Length ≤ 125 → HeaderSize h = 2 + (if h.Masked then 4 else 0)) ∧
    (125 < h.Length → h.Length ≤ 65535 →
      HeaderSize h = 4 + (if h.Masked then 4 else 0)) ∧
    (65535 < h.Length → HeaderSize h = 10 + (if h.Masked then 4 else 0)) ∧
    HeaderSize { h with Length := 125, Masked := false } = 2 ∧
    HeaderSize { h with Length := 126, Masked := false } = 4 ∧
    HeaderSize { h with Length := 65535, Masked := false } = 4 ∧
    HeaderSize { h with Length := 65536, Masked := false } = 10 := by
  have _ := h0
  refine ⟨fun a => ?_, fun a b => ?_, fun a => ?_, ?_, ?_, ?_, ?_⟩
  · rw [HeaderSize_eq h h2, if_pos a]
  · rw [HeaderSize_eq h h2, if_neg (by omega), if_pos b]
  · rw [HeaderSize_eq h h2, if_neg (by omega), if_neg (by omega)]
  all_goals rw [HeaderSize_eq _ (by norm_num)]; norm_num

theorem HeaderSize_tiers_witness :
    (0 : Int) ≤ 300 ∧ (300 : Int) ≤ 2 ^ 63 - 1 ∧
    HeaderSize ⟨false, 0, 2, true, ⟨9, 8, 7, 6⟩, 300⟩ = 4 + 4 :=
  ⟨by decide, by decide,
    (HeaderSize_tiers ⟨false, 0, 2, true, ⟨9, 8, 7, 6⟩, 300⟩ (by decide) (by decide)).2.1
      (by decide) (by decide)⟩

/-- C3 (the code differs): `HeaderSize` of a header with negative `Length`
is evaluated at `Length = -1`; the first case `Length < 126` takes it, so the
result is 2 (6 when masked) and not the sentinel -1. -/
theorem HeaderSize_negative_eval :
    HeaderSize ⟨false, 0, 1, false, ⟨0, 0, 0, 0⟩, -1⟩ = 2 ∧
    HeaderSize ⟨false, 0, 1, true, ⟨0, 0, 0, 0⟩, -1⟩ = 6 ∧
    HeaderSize ⟨false, 0, 1, false, ⟨0, 0, 0, 0⟩, -9223372036854775808⟩ = 2 := by
  refine ⟨?_, ?_, ?_⟩ <;> rw [HeaderSize_eq _ (by norm_num)] <;> norm_num

/-- C4 (the code differs): `WriteHeader` and `WriteFrame` are evaluated at
`Length = -1` with a sink that accepts every write; `WriteHeader` returns no
error and writes the two bytes `[0x01, 0xFF]`, and `WriteFrame` writes them and
then the payload. -/
theorem WriteHeader_negative_eval :
    WriteHeader (recording okSink) ((), []) ⟨false, 0, 1, false, ⟨0, 0, 0, 0⟩, -1⟩
      = (((), [[0x01, 0xFF]]), none) ∧
    WriteFrame (recording okSink) ((), [])
        ⟨⟨false, 0, 1, false, ⟨0, 0, 0, 0⟩, -1⟩, [7, 8, 9]⟩
      = (((), [[0x01, 0xFF], [7, 8, 9]]), none) := by
  have e : encode ⟨false, 0, 1, false, ⟨0, 0, 0, 0⟩, -1⟩ = some [0x01, 0xFF] := by
    rw [encode_small _ (by norm_num)]; rfl
  have a : WriteHeader okSink () ⟨false, 0, 1, false, ⟨0, 0, 0, 0⟩, -1⟩ = ((), none) := by
    rw [WriteHeader_eq, e]; rfl
  constructor
  · rw [recording_WriteHeader, a, e]; rfl
  · have b : WriteFrame okSink ()
        ⟨⟨false, 0, 1, false, ⟨0, 0, 0, 0⟩, -1⟩, [7, 8, 9]⟩ = ((), none) := by
      simp only [WriteFrame, a]; rfl
    rw [recording_WriteFrame]
    simp only [a, b, e]
    rfl

/-- C5: for every header with `Rsv` in 0..7, `OpCode` in 0..15 and
`0 ≤ Length`, byte 0 of the bytes `WriteHeader` writes is
`(0x80 if Fin else 0) OR (Rsv * 16) OR OpCode`: bit 7 is set iff `Fin`,
bits 6-4 equal `Rsv`, bits 3-0 equal `OpCode`; and `fin=true, rsv=0, opCode=1`,
unmasked, `length=10` gives the bytes `[0x81, 0x0A]`. -/
theorem WriteHeader_byte0 {σ : Type} (w : Writer σ) (s : σ) (h : Header)
    (hr : h.Rsv ≤ 7) (ho : h.OpCode ≤ 15) (h0 : 0 ≤ h.Length)
    (h2 : h.Length ≤ 2 ^ 63 - 1) :
    (∃ p, (WriteHeader (recording w) (s, []) h).1.2 = [p] ∧
      p.getD 0 0 = ((if h.Fin then 0x80 else 0) ||| (h.Rsv * 16)) ||| h.OpCode ∧
      (p.getD 0 0).testBit 7 = h.Fin ∧
      p.getD 0 0 / 16 % 8 = h.Rsv ∧
      p.getD 0 0 % 16 = h.OpCode) ∧
    (WriteHeader (recording w) (s, [])
        { h with Fin := true, Rsv := 0, OpCode := 1, Masked := false, Length := 10 }).1.2
      = [[0x81, 0x0A]] := by
  have _ := h0
  constructor
  · obtain ⟨p, hp, hb⟩ := encode_head h h2
    obtain ⟨v1, v2⟩ := byte0_val h hr ho
    refine ⟨p, by simp [recording_WriteHeader, hp], by rw [hb, v2], ?_, ?_, ?_⟩
    · rw [hb, v1, Nat.testBit, Nat.shiftRight_eq_div_pow]
      cases h.Fin <;> simp <;> omega
    · rw [hb, v1]; cases h.Fin <;> simp <;> omega
    · rw [hb, v1]; cases h.Fin <;> simp <;> omega
  · rw [recording_WriteHeader, encode_small _ (by norm_num)]
    simp [byte0, byteOfInt, bit0]

theorem WriteHeader_byte0_witness :
    (3 : Nat) ≤ 7 ∧ (9 : Nat) ≤ 15 ∧ (0 : Int) ≤ 200 ∧ (200 : Int) ≤ 2 ^ 63 - 1 ∧
    ∃ p, (WriteHeader (recording okSink) ((), [])
            ⟨true, 3, 9, false, ⟨0, 0, 0, 0⟩, 200⟩).1.2 = [p] ∧
      p.getD 0 0 = ((if true then 0x80 else 0) ||| (3 * 16)) ||| 9 ∧
      (p.getD 0 0).testBit 7 = true ∧
      p.getD 0 0 / 16 % 8 = 3 ∧
      p.getD 0 0 % 16 = 9 :=
  ⟨by decide, by decide, by decide, by decide,
    (WriteHeader_byte0 okSink () ⟨true, 3, 9, false, ⟨0, 0, 0, 0⟩, 200⟩
      (by decide) (by decide) (by decide) (by decide)).1⟩

/-- C6: for every header with `0 ≤ Length ≤ 2^63 - 1` the length field written
by `WriteHeader` is: for `Length ≤ 125`, bits 6-0 of byte 1 equal `Length` and
no extended bytes follow; for `125 < Length ≤ 65535`, bits 6-0 of byte 1 equal
126 and bytes 2-3 are `Length` big-endian (`256 * b2 + b3 = Length`); for
`65535 < Length`, bits 6-0 of byte 1 equal 127 and bytes 2-9 are `Length`
big-endian (their base-256 value is `Length`).  What follows the length field
is the mask key when `Masked`, and nothing otherwise. -/
theorem WriteHeader_length_field {σ : Type} (w : Writer σ) (s : σ) (h : Header)
    (h0 : 0 ≤ h.Length) (h2 : h.Length ≤ 2 ^ 63 - 1) :
    ∃ p, (WriteHeader (recording w) (s, []) h).1.2 = [p] ∧
      (h.Length ≤ 125 →
        ((p.getD 1 0 % 128 : Nat) : Int) = h.Length ∧
        p.drop 2 = (if h.Masked then h.Mask.toList else [])) ∧
      (125 < h.Length → h.Length ≤ 65535 →
        p.getD 1 0 % 128 = 126 ∧ p.getD 2 0 < 256 ∧ p.getD 3 0 < 256 ∧
        ((256 * p.getD 2 0 + p.getD 3 0 : Nat) : Int) = h.Length ∧
        p.drop 4 = (if h.Masked then h.Mask.toList else [])) ∧
      (65535 < h.Length →
        p.getD 1 0 % 128 = 127 ∧
        ((p.drop 2).take 8).length = 8 ∧ (∀ b ∈ (p.drop 2).take 8, b < 256) ∧
        (beValue ((p.drop 2).take 8) : Int) = h.Length ∧
        p.drop 10 = (if h.Masked then h.Mask.toList else [])) := by
  by_cases a : h.Length ≤ 125
  · refine ⟨_, log_of_encode w s h _ (encode_small h a), fun _ => ?_,
      fun c => absurd a (by omega), fun c => absurd a (by omega)⟩
    obtain ⟨v, lt⟩ := byteOfInt_small h.Length h0 a
    cases h.Masked
    · simp only [Bool.false_eq_true, if_false, List.getD_cons_succ, List.getD_cons_zero,
        List.drop_succ_cons, List.drop_zero, and_true]
      omega
    · simp only [if_true, List.getD_cons_succ, List.getD_cons_zero, List.cons_append,
        List.nil_append, List.drop_succ_cons, List.drop_zero, and_true, or_bit0 _ lt]
      omega
  · by_cases b : h.Length ≤ 65535
    · refine ⟨_, log_of_encode w s h _ (encode_medium h (by omega) b),
        fun c => absurd c a, fun _ _ => ?_, fun c => absurd b (by omega)⟩
      have v := be16_value h.Length h0 b
      cases h.Masked
      · simp only [Bool.false_eq_true, if_false, List.getD_cons_succ, List.getD_cons_zero,
          List.drop_succ_cons, List.drop_zero, and_true]
        exact ⟨by norm_num, Nat.mod_lt _ (by norm_num), Nat.mod_lt _ (by norm_num), v⟩
      · simp only [if_true, List.getD_cons_succ, List.getD_cons_zero, List.cons_append,
          List.nil_append, List.drop_succ_cons, List.drop_zero, and_true,
          or_bit0 126 (by norm_num)]
        exact ⟨by norm_num, Nat.mod_lt _ (by norm_num), Nat.mod_lt _ (by norm_num), v⟩
    · refine ⟨_, log_of_encode w s h _ (encode_large h (by omega) (by omega)),
        fun c => absurd c a, fun _ c => absurd c b, fun _ => ?_⟩
      have v := be64_value h.Length h0 h2
      obtain ⟨l8, lt⟩ := be64_bytes (uint64OfInt h.Length)
      have t : (be64 (uint64OfInt h.Length) ++ h.Mask.toList).take 8
          = be64 (uint64OfInt h.Length) := by
        rw [List.take_append_of_le_length (by omega), List.take_of_length_le (by omega)]
      have d : (be64 (uint64OfInt h.Length) ++ h.Mask.toList).drop 8 = h.Mask.toList := by
        rw [← l8, List.drop_left]
      cases h.Masked
      · simp only [Bool.false_eq_true, if_false, List.getD_cons_succ, List.getD_cons_zero,
          List.drop_succ_cons, List.drop_zero, List.take_of_length_le (le_of_eq l8),
          List.drop_of_length_le (le_of_eq l8)]
        exact ⟨by norm_num, l8, lt, v, trivial⟩
      · simp only [if_true, List.getD_cons_succ, List.getD_cons_zero, List.cons_append,
          List.drop_succ_cons, List.drop_zero, t, d, or_bit0 127 (by norm_num)]
        exact ⟨by norm_num, l8, lt, v, trivial⟩

theorem WriteHeader_length_field_witness :
    (0 : Int) ≤ 70000 ∧ (70000 : Int) ≤ 2 ^ 63 - 1 ∧
    ∃ p, (WriteHeader (recording okSink) ((), [])
            ⟨false, 0, 2, false, ⟨0, 0, 0, 0⟩, 70000⟩).1.2 = [p] ∧
      p.getD 1 0 % 128 = 127 ∧ (beValue ((p.drop 2).take 8) : Int) = 70000 := by
  obtain ⟨p, hp, _, _, h3⟩ :=
    WriteHeader_length_field okSink () ⟨false, 0, 2, false, ⟨0, 0, 0, 0⟩, 70000⟩
      (by decide) (by decide)
  exact ⟨by decide, by decide, p, hp, (h3 (by decide)).1, (h3 (by decide)).2.2.2.1⟩

/-- C7: for every header with `0 ≤ Length ≤ 2^63 - 1`, let `u` be the bytes
`WriteHeader` writes with `Masked = false` and `m` the bytes it writes with
`Masked = true`: `m` has exactly 4 more bytes than `u`; `m` is `u` with bit 7 of
byte 1 set (bits 6-0 and all other bytes unchanged) followed by the 4 bytes of
`Mask` in order; bit 7 of byte 1 is clear in `u`; `HeaderSize` grows by 4; and
`fin=false, opCode=2, length=200, mask=[1,2,3,4]` gives
`[0x02,0xFE,0x00,0xC8,0x01,0x02,0x03,0x04]`. -/
theorem WriteHeader_masked {σ : Type} (w : Writer σ) (s : σ) (h : Header)
    (h0 : 0 ≤ h.Length) (h2 : h.Length ≤ 2 ^ 63 - 1) :
    (∃ u m,
      (WriteHeader (recording w) (s, []) { h with Masked := false }).1.2 = [u] ∧
      (WriteHeader (recording w) (s, []) { h with Masked := true }).1.2 = [m] ∧
      m.length = u.length + 4 ∧
      m = u.set 1 (u.getD 1 0 ||| 0x80) ++ h.Mask.toList ∧
      u.getD 1 0 < 128 ∧
      u.getD 1 0 ||| 0x80 = u.getD 1 0 + 128 ∧
      m.getD 1 0 = u.getD 1 0 + 128 ∧
      HeaderSize { h with Masked := true } = HeaderSize { h with Masked := false } + 4) ∧
    (WriteHeader (recording w) (s, [])
        ⟨false, 0, 2, true, ⟨0x01, 0x02, 0x03, 0x04⟩, 200⟩).1.2
      = [[0x02, 0xFE, 0x00, 0xC8, 0x01, 0x02, 0x03, 0x04]] := by
  constructor
  · obtain ⟨u, hu, lt, hm⟩ := encode_masked h h0 h2
    obtain ⟨p, hp, hl⟩ := encode_length { h with Masked := false } h2
    have e : p = u := Option.some.inj (hp.symm.trans hu)
    subst e
    have l2 : 2 ≤ p.length := by
      have := HeaderSize_eq { h with Masked := false } h2
      simp only at this
      split_ifs at this <;> omega
    refine ⟨p, _, log_of_encode w s _ _ hu, log_of_encode w s _ _ hm, ?_, rfl, lt,
      or_bit0 _ lt, ?_, ?_⟩
    · simp [Byte4.toList]
    · rw [List.getD_append _ _ _ _ (by simp; omega), List.getD_eq_getElem _ _ (by simp; omega),
        List.getElem_set_self, ← or_bit0 _ lt]
    · rw [HeaderSize_eq { h with Masked := true } h2,
        HeaderSize_eq { h with Masked := false } h2]
      simp
  · apply log_of_encode
    rw [encode_medium _ (by norm_num) (by norm_num)]
    simp [byte0, uint16OfInt, bit0, Byte4.toList]

theorem WriteHeader_masked_witness :
    (0 : Int) ≤ 70000 ∧ (70000 : Int) ≤ 2 ^ 63 - 1 ∧
    ∃ u m,
      (WriteHeader (recording okSink) ((), [])
        ⟨true, 0, 1, false, ⟨9, 8, 7, 6⟩, 70000⟩).1.2 = [u] ∧
      (WriteHeader (recording okSink) ((), [])
        ⟨true, 0, 1, true, ⟨9, 8, 7, 6⟩, 70000⟩).1.2 = [m] ∧
      m.length = u.length + 4 ∧
      m = u.set 1 (u.getD 1 0 ||| 0x80) ++ [9, 8, 7, 6] := by
  obtain ⟨u, m, a, b, c, d, _⟩ :=
    (WriteHeader_masked okSink () ⟨true, 0, 1, false, ⟨9, 8, 7, 6⟩, 70000⟩
      (by decide) (by decide)).1
  exact ⟨by decide, by decide, u, m, a, b, c, d⟩

/-- C8: for every frame (its `Length` an `int64`, so at most `2^63 - 1`) and a
sink that accepts every write, `WriteFrame` succeeds and the sink observes
exactly two writes, in this order: the header bytes `WriteHeader` produces for
`f.Header`, then `f.Payload` unchanged (whatever `Masked` is and whatever the
length of the payload). -/
theorem WriteFrame_accepting {σ : Type} (w : Writer σ) (hw : Accepting w) (s : σ)
    (f : Frame) (h2 : f.Header.Length ≤ 2 ^ 63 - 1) :
    (WriteFrame w s f).2 = none ∧
    ∃ hb, (WriteHeader (recording w) (s, []) f.Header).1.2 = [hb] ∧
      (WriteFrame (recording w) (s, []) f).1.2 = [hb, f.Payload] := by
  obtain ⟨p, hp, _⟩ := encode_length f.Header h2
  have a : (WriteHeader w s f.Header).2 = none := by
    rw [WriteHeader_eq, hp]; exact hw s p
  refine ⟨?_, p, log_of_encode w s _ _ hp, ?_⟩
  · unfold WriteFrame
    simp only [a]
    exact hw _ _
  · rw [recording_WriteFrame]
    simp [a, hp]

theorem WriteFrame_accepting_witness :
    Accepting okSink ∧ (5 : Int) ≤ 2 ^ 63 - 1 ∧
    (WriteFrame okSink () ⟨⟨true, 0, 2, true, ⟨1, 2, 3, 4⟩, 5⟩, [10, 20, 30]⟩).2 = none ∧
    ∃ hb, (WriteHeader (recording okSink) ((), [])
            ⟨true, 0, 2, true, ⟨1, 2, 3, 4⟩, 5⟩).1.2 = [hb] ∧
      (WriteFrame (recording okSink) ((), [])
        ⟨⟨true, 0, 2, true, ⟨1, 2, 3, 4⟩, 5⟩, [10, 20, 30]⟩).1.2 = [hb, [10, 20, 30]] :=
  ⟨fun _ _ => rfl, by decide,
    WriteFrame_accepting okSink (fun _ _ => rfl) ()
      ⟨⟨true, 0, 2, true, ⟨1, 2, 3, 4⟩, 5⟩, [10, 20, 30]⟩ (by decide)⟩

/-- C9: for every frame and every sink, if the header step of `WriteFrame`
fails (`WriteHeader` returns an error, from the length check or from the sink),
then `WriteFrame` returns that error, leaves the sink as `WriteHeader` left it,
and the sink's `Write` is not invoked with the payload: the sink sees exactly
the calls of `WriteHeader`, at most one. -/
theorem WriteFrame_header_failure {σ : Type} (w : Writer σ) (s : σ) (f : Frame) (e : Error)
    (he : (WriteHeader w s f.Header).2 = some e) :
    (WriteFrame w s f).2 = some e ∧
    (WriteFrame w s f).1 = (WriteHeader w s f.Header).1 ∧
    (WriteFrame (recording w) (s, []) f).1.2
      = (WriteHeader (recording w) (s, []) f.Header).1.2 ∧
    (WriteFrame (recording w) (s, []) f).1.2.length ≤ 1 := by
  have a : WriteFrame w s f = ((WriteHeader w s f.Header).1, some e) := by
    unfold WriteFrame
    simp only [he]
  refine ⟨by rw [a], by rw [a], ?_, ?_⟩
  · rw [recording_WriteFrame, recording_WriteHeader]
    simp [he]
  · rw [recording_WriteFrame]
    cases encode f.Header <;> simp [he]

theorem WriteFrame_header_failure_witness :
    (WriteHeader failSink () ⟨true, 0, 2, false, ⟨0, 0, 0, 0⟩, 3⟩).2 = some (Error.other 7) ∧
    (WriteFrame failSink () ⟨⟨true, 0, 2, false, ⟨0, 0, 0, 0⟩, 3⟩, [1, 2, 3]⟩).2
      = some (Error.other 7) ∧
    (WriteFrame (recording failSink) ((), [])
        ⟨⟨true, 0, 2, false, ⟨0, 0, 0, 0⟩, 3⟩, [1, 2, 3]⟩).1.2.length ≤ 1 := by
  have he : (WriteHeader failSink () ⟨true, 0, 2, false, ⟨0, 0, 0, 0⟩, 3⟩).2
      = some (Error.other 7) := by
    rw [WriteHeader_eq, encode_small _ (by norm_num)]
    rfl
  have t := WriteFrame_header_failure failSink ()
    ⟨⟨true, 0, 2, false, ⟨0, 0, 0, 0⟩, 3⟩, [1, 2, 3]⟩ (Error.other 7) he
  exact ⟨he, t.1, t.2.2.2⟩

/-- C10: for every header with `0 ≤ Length ≤ 2^63 - 1` and every sink,
`WriteHeader` invokes the sink's `Write` exactly once, and the argument of that
call is the complete encoded header: the 14-byte buffer from offset 0 up to
the computed size `n = HeaderSize h`. -/
theorem WriteHeader_single_write {σ : Type} (w : Writer σ) (s : σ) (h : Header)
    (h0 : 0 ≤ h.Length) (h2 : h.Length ≤ 2 ^ 63 - 1) :
    ∃ bts n, headerBuf h = some (bts, n) ∧
      bts.length = MaxHeaderSize ∧ n ≤ MaxHeaderSize ∧ (n : Int) = HeaderSize h ∧
      (WriteHeader (recording w) (s, []) h).1.2 = [bts.take n] ∧
      (WriteHeader (recording w) (s, []) h).1.2.length = 1 ∧
      (bts.take n).length = n := by
  have _ := h0
  obtain ⟨bts, n, hb, hl, hn⟩ := headerBuf_some h h2
  have e : encode h = some (bts.take n) := by
    unfold encode; rw [hb]; rfl
  have le : n ≤ MaxHeaderSize := by
    have := HeaderSize_eq h h2
    unfold MaxHeaderSize
    split_ifs at this <;> omega
  have lg := log_of_encode w s h _ e
  refine ⟨bts, n, hb, hl, le, hn, lg, by rw [lg]; rfl, ?_⟩
  rw [List.length_take, hl]
  exact Nat.min_eq_left le

theorem WriteHeader_single_write_witness :
    (0 : Int) ≤ 126 ∧ (126 : Int) ≤ 2 ^ 63 - 1 ∧
    (WriteHeader (recording failSink) ((), [])
      ⟨true, 7, 15, true, ⟨255, 0, 255, 0⟩, 126⟩).1.2.length = 1 := by
  obtain ⟨_, _, _, _, _, _, _, h1, _⟩ :=
    WriteHeader_single_write failSink () ⟨true, 7, 15, true, ⟨255, 0, 255, 0⟩, 126⟩
      (by decide) (by decide)
  exact ⟨by decide, by decide, h1⟩

/-- C11: sink failures are propagated verbatim.  For every header with
`0 ≤ Length ≤ 2^63 - 1`, `WriteHeader` returns exactly what the sink's one
`Write` call returned (the error `e`, or `nil`).  For every frame, `WriteFrame`
returns the error of the header step if there is one, otherwise what the
payload `Write` returned; the sink sees each write at most once (header, then
payload only after a header success), so nothing is retried. -/
theorem sink_error_verbatim {σ : Type} (w : Writer σ) (s : σ) (h : Header) (f : Frame)
    (h0 : 0 ≤ h.Length) (h2 : h.Length ≤ 2 ^ 63 - 1) :
    (∃ p, (WriteHeader (recording w) (s, []) h).1.2 = [p] ∧
      (WriteHeader w s h).2 = (w.Write s p).2.2 ∧
      (WriteHeader w s h).1 = (w.Write s p).1) ∧
    (WriteFrame w s f).2 =
      (match (WriteHeader w s f.Header).2 with
       | some e => some e
       | none => (w.Write (WriteHeader w s f.Header).1 f.Payload).2.2) ∧
    (WriteFrame (recording w) (s, []) f).1.2 =
      (WriteHeader (recording w) (s, []) f.Header).1.2 ++
        (if (WriteHeader w s f.Header).2 = none then [f.Payload] else []) ∧
    (WriteHeader (recording w) (s, []) f.Header).1.2.length ≤ 1 := by
  have _ := h0
  refine ⟨?_, ?_, ?_, ?_⟩
  · obtain ⟨p, hp, _⟩ := encode_length h h2
    refine ⟨p, log_of_encode w s h p hp, ?_, ?_⟩ <;> rw [WriteHeader_eq, hp]
  · unfold WriteFrame
    cases hr : (WriteHeader w s f.Header).2 <;> simp only [hr]
  · rw [recording_WriteFrame, recording_WriteHeader]
  · rw [recording_WriteHeader]
    cases encode f.Header <;> simp

theorem sink_error_verbatim_witness :
    (0 : Int) ≤ 3 ∧ (3 : Int) ≤ 2 ^ 63 - 1 ∧
    ∃ p, (WriteHeader (recording failSink) ((), [])
            ⟨true, 0, 2, false, ⟨0, 0, 0, 0⟩, 3⟩).1.2 = [p] ∧
      (WriteHeader failSink () ⟨true, 0, 2, false, ⟨0, 0, 0, 0⟩, 3⟩).2
        = (failSink.Write () p).2.2 ∧
      (WriteHeader failSink () ⟨true, 0, 2, false, ⟨0, 0, 0, 0⟩, 3⟩).1
        = (failSink.Write () p).1 :=
  ⟨by decide, by decide,
    (sink_error_verbatim failSink () ⟨true, 0, 2, false, ⟨0, 0, 0, 0⟩, 3⟩
      ⟨⟨true, 0, 2, false, ⟨0, 0, 0, 0⟩, 3⟩, [1, 2, 3]⟩ (by decide) (by decide)).1⟩

/-- C13: when `Masked` is false the `Mask` field is ignored: two headers that
agree on `Fin`, `Rsv`, `OpCode`, `Length`, have `Masked = false` and differ
arbitrarily in `Mask` have the same `HeaderSize`, and `WriteHeader` writes the
same bytes for both (and returns the same result on the same sink). -/
theorem unmasked_ignores_Mask {σ : Type} (w : Writer σ) (s : σ) (h : Header) (m : Byte4)
    (hm : h.Masked = false) :
    HeaderSize { h with Mask := m } = HeaderSize h ∧
    (WriteHeader (recording w) (s, []) { h with Mask := m }).1.2
      = (WriteHeader (recording w) (s, []) h).1.2 ∧
    WriteHeader w s { h with Mask := m } = WriteHeader w s h := by
  have e := encode_mask_irrelevant h m hm
  refine ⟨?_, ?_, ?_⟩
  · unfold HeaderSize
    simp [hm, Byte4.len]
  · rw [recording_WriteHeader, recording_WriteHeader, e]
  · rw [WriteHeader_eq, WriteHeader_eq, e]

theorem unmasked_ignores_Mask_witness :
    (⟨true, 1, 2, false, ⟨0, 0, 0, 0⟩, 300⟩ : Header).Masked = false ∧
    (WriteHeader (recording okSink) ((), [])
        ⟨true, 1, 2, false, ⟨9, 8, 7, 6⟩, 300⟩).1.2
      = (WriteHeader (recording okSink) ((), [])
        ⟨true, 1, 2, false, ⟨0, 0, 0, 0⟩, 300⟩).1.2 :=
  ⟨rfl, (unmasked_ignores_Mask okSink () ⟨true, 1, 2, false, ⟨0, 0, 0, 0⟩, 300⟩
    ⟨9, 8, 7, 6⟩ rfl).2.1⟩

/-- C14: for every header with `0 ≤ Length ≤ 2^63 - 1`,
`MinHeaderSize (2) ≤ HeaderSize h ≤ MaxHeaderSize (14)`; 2 is attained by an
unmasked header of length at most 125 and 14 by a masked header of length above
65535; and the number of bytes `WriteHeader` writes never exceeds its 14-byte
buffer. -/
theorem HeaderSize_bounds {σ : Type} (w : Writer σ) (s : σ) (h : Header)
    (h0 : 0 ≤ h.Length) (h2 : h.Length ≤ 2 ^ 63 - 1) :
    (MinHeaderSize : Int) ≤ HeaderSize h ∧ HeaderSize h ≤ (MaxHeaderSize : Int) ∧
    (h.Masked = false → h.Length ≤ 125 → HeaderSize h = (MinHeaderSize : Int)) ∧
    (h.Masked = true → 65535 < h.Length → HeaderSize h = (MaxHeaderSize : Int)) ∧
    (∃ bts n, headerBuf h = some (bts, n) ∧ bts.length = MaxHeaderSize ∧ n ≤ bts.length ∧
      (WriteHeader (recording w) (s, []) h).1.2 = [bts.take n] ∧
      (bts.take n).length ≤ MaxHeaderSize) := by
  have _ := h0
  have e := HeaderSize_eq h h2
  obtain ⟨bts, n, hb, hl, hn⟩ := headerBuf_some h h2
  have le : n ≤ 14 := by
    split_ifs at e <;> omega
  unfold MinHeaderSize MaxHeaderSize at *
  refine ⟨?_, ?_, ?_, ?_, bts, n, hb, hl, by omega, ?_, ?_⟩
  · split_ifs at e <;> omega
  · split_ifs at e <;> omega
  · intro a b
    rw [e, a, if_pos b]; rfl
  · intro a b
    rw [e, a, if_neg (by omega), if_neg (by omega)]; rfl
  · apply log_of_encode
    unfold encode; rw [hb]; rfl
  · rw [List.length_take]; omega

theorem HeaderSize_bounds_witness :
    (0 : Int) ≤ 65536 ∧ (65536 : Int) ≤ 2 ^ 63 - 1 ∧
    HeaderSize ⟨false, 0, 2, true, ⟨1, 2, 3, 4⟩, 65536⟩ = (MaxHeaderSize : Int) :=
  ⟨by decide, by decide,
    (HeaderSize_bounds okSink () ⟨false, 0, 2, true, ⟨1, 2, 3, 4⟩, 65536⟩
      (by decide) (by decide)).2.2.2.1 rfl (by decide)⟩

/-- C15: the size calculator and the encoder agree on which inputs are
invalid: for every header and a sink that accepts every write,
`HeaderSize h = -1` if and only if `WriteHeader` returns
`ErrHeaderLengthUnexpected`.  Both happen exactly on the `default` branches,
that is for `Length` above `2^63 - 1`; for every `int64` length neither does. -/
theorem invalid_agree {σ : Type} (w : Writer σ) (hw : Accepting w) (s : σ) (h : Header) :
    (HeaderSize h = -1 ↔
      (WriteHeader w s h).2 = some Error.ErrHeaderLengthUnexpected) ∧
    (h.Length ≤ 2 ^ 63 - 1 → HeaderSize h ≠ -1 ∧ (WriteHeader w s h).2 = none) := by
  have key : h.Length ≤ 2 ^ 63 - 1 → (WriteHeader w s h).2 = none := by
    intro a
    obtain ⟨p, hp, _⟩ := encode_length h a
    rw [WriteHeader_eq, hp]
    exact hw s p
  constructor
  · rw [HeaderSize_invalid]
    by_cases a : h.Length ≤ 2 ^ 63 - 1
    · rw [key a]
      exact ⟨fun c => absurd a c, fun c => by simp at c⟩
    · rw [WriteHeader_eq, encode_none h (by omega)]
      exact ⟨fun _ => rfl, fun _ => a⟩
  · intro a
    exact ⟨fun c => (HeaderSize_invalid h).mp c a, key a⟩

theorem invalid_agree_witness :
    Accepting okSink ∧
    (HeaderSize ⟨true, 0, 1, false, ⟨0, 0, 0, 0⟩, -5⟩ = -1 ↔
      (WriteHeader okSink () ⟨true, 0, 1, false, ⟨0, 0, 0, 0⟩, -5⟩).2
        = some Error.ErrHeaderLengthUnexpected) :=
  ⟨fun _ _ => rfl,
    (invalid_agree okSink (fun _ _ => rfl) () ⟨true, 0, 1, false, ⟨0, 0, 0, 0⟩, -5⟩).1⟩

/-- C16: because `len64` is the largest `int64`, the invalid branches are not
reached: for every header with `Length < 0`, `HeaderSize h` is 2 (6 if masked),
and `WriteHeader` with an accepting sink returns `nil` after writing 2 (6 if
masked) bytes whose byte 1 is the low 8 bits of the two's complement of
`Length` (or-ed with `0x80` if masked); `Length = -1`, `Masked = false` writes
byte 1 = `0xFF`, which has the MASK bit set although no mask key follows. -/
theorem negative_length_encoded {σ : Type} (w : Writer σ) (hw : Accepting w) (s : σ)
    (h : Header) (hneg : h.Length < 0) :
    HeaderSize h = (if h.Masked then 6 else 2) ∧
    (WriteHeader w s h).2 = none ∧
    (∃ p, (WriteHeader (recording w) (s, []) h).1.2 = [p] ∧
      p.length = (if h.Masked then 6 else 2) ∧
      p.getD 1 0 = (if h.Masked then byteOfInt h.Length ||| 0x80 else byteOfInt h.Length) ∧
      (byteOfInt h.Length : Int) = (h.Length + 2 ^ 64) % 256) ∧
    (WriteHeader (recording w) (s, [])
        { h with Fin := false, Rsv := 0, OpCode := 1, Masked := false, Length := -1 }).1.2
      = [[0x01, 0xFF]] ∧
    (0xFF : Nat).testBit 7 = true := by
  have a : h.Length ≤ 125 := by omega
  have e := encode_small h a
  refine ⟨?_, ?_, ⟨_, log_of_encode w s h _ e, ?_, ?_, ?_⟩, ?_, by decide⟩
  · rw [HeaderSize_eq h (by omega), if_pos a]
    cases h.Masked <;> simp
  · rw [WriteHeader_eq, e]
    exact hw s _
  · cases h.Masked <;> simp [Byte4.toList]
  · cases h.Masked <;> simp [bit0]
  · unfold byteOfInt
    omega
  · apply log_of_encode
    rw [encode_small _ (by norm_num)]
    simp [byte0, byteOfInt]

theorem negative_length_encoded_witness :
    Accepting okSink ∧ (-1 : Int) < 0 ∧
    HeaderSize ⟨true, 0, 1, true, ⟨1, 2, 3, 4⟩, -1⟩ = (if true then 6 else 2) ∧
    (WriteHeader okSink () ⟨true, 0, 1, true, ⟨1, 2, 3, 4⟩, -1⟩).2 = none :=
  ⟨fun _ _ => rfl, by decide,
    (negative_length_encoded okSink (fun _ _ => rfl) ()
      ⟨true, 0, 1, true, ⟨1, 2, 3, 4⟩, -1⟩ (by decide)).1,
    (negative_length_encoded okSink (fun _ _ => rfl) ()
      ⟨true, 0, 1, true, ⟨1, 2, 3, 4⟩, -1⟩ (by decide)).2.1⟩

/-- C12, as stated, fails: two headers that differ only in `OpCode` (0 and
0x10, both byte values) give byte 0 values `0x00` and `0x10`, whose bits 7-4
differ. -/
theorem OpCode_high_bits_counterexample :
    (WriteHeader (recording okSink) ((), [])
        ⟨false, 0, 0x00, false, ⟨0, 0, 0, 0⟩, 0⟩).1.2 = [[0x00, 0x00]] ∧
    (WriteHeader (recording okSink) ((), [])
        ⟨false, 0, 0x10, false, ⟨0, 0, 0, 0⟩, 0⟩).1.2 = [[0x10, 0x00]] ∧
    ¬ ((0x00 : Nat) / 16 = 0x10 / 16) := by
  refine ⟨?_, ?_, by decide⟩ <;>
  · apply log_of_encode
    rw [encode_small _ (by norm_num)]
    simp [byte0, byteOfInt, bit0]

/-- C12, amended: for every header (any `OpCode` byte value 0..255, `Length`
an `int64`), bits 3-0 of byte 0 written by `WriteHeader` equal `OpCode mod 16`;
and when `OpCode` is in 0..15, bits 7-4 of byte 0 depend only on `Fin` and
`Rsv`: two headers that differ only in `OpCode`, both in 0..15, produce byte 0
values with identical bits 7-4. -/
theorem OpCode_low_bits {σ : Type} (w : Writer σ) (s : σ) (h : Header) (o : Nat)
    (ho : h.OpCode ≤ 255) (h2 : h.Length ≤ 2 ^ 63 - 1) :
    ∃ p q, (WriteHeader (recording w) (s, []) h).1.2 = [p] ∧
      (WriteHeader (recording w) (s, []) { h with OpCode := o }).1.2 = [q] ∧
      p.getD 0 0 % 16 = h.OpCode % 16 ∧
      (h.OpCode ≤ 15 → p.getD 0 0 / 16 = ((if h.Fin then 8 else 0) ||| h.Rsv % 16)) ∧
      (h.OpCode ≤ 15 → o ≤ 15 → p.getD 0 0 / 16 = q.getD 0 0 / 16) := by
  have _ := ho
  obtain ⟨p, hp, hb⟩ := encode_head h h2
  obtain ⟨q, hq, hc⟩ := encode_head { h with OpCode := o } h2
  have hi : ∀ g : Header, g.OpCode ≤ 15 →
      byte0 g / 16 = ((if g.Fin then 8 else 0) ||| g.Rsv % 16) := by
    intro g hg
    have z : g.OpCode % 256 / 16 = 0 := by omega
    rw [byte0_high, z]
    simp
  refine ⟨p, q, log_of_encode w s h p hp, log_of_encode w s _ q hq, ?_, ?_, ?_⟩
  · rw [hb, byte0_low]
  · intro a
    rw [hb, hi h a]
  · intro a b
    rw [hb, hc, hi h a, hi { h with OpCode := o } b]

theorem OpCode_low_bits_witness :
    (0xA9 : Nat) ≤ 255 ∧ (70000 : Int) ≤ 2 ^ 63 - 1 ∧
    ∃ p, (WriteHeader (recording okSink) ((), [])
            ⟨true, 5, 0xA9, false, ⟨0, 0, 0, 0⟩, 70000⟩).1.2 = [p] ∧
      p.getD 0 0 % 16 = 0xA9 % 16 := by
  obtain ⟨p, _, hp, _, hl, _⟩ :=
    OpCode_low_bits okSink () ⟨true, 5, 0xA9, false, ⟨0, 0, 0, 0⟩, 70000⟩ 3
      (by decide) (by decide)
  exact ⟨by decide, by decide, p, hp, hl⟩

/-- C20: `Rsv` is shifted within a byte and not masked to 3 bits: for every
header with `OpCode` in 0..15 and any `Rsv` byte value 0..255 (`Length` an
`int64`), bits 6-4 of byte 0 written by `WriteHeader` equal `Rsv mod 8`, and
bit 7 (the FIN position) is set if and only if `Fin` is true or bit 3 of `Rsv`
is set (`Rsv mod 16 ≥ 8`); `Fin = false`, `Rsv = 8` yields byte 0 with the FIN
bit set. -/
theorem Rsv_not_masked {σ : Type} (w : Writer σ) (s : σ) (h : Header)
    (ho : h.OpCode ≤ 15) (hr : h.Rsv ≤ 255) (h2 : h.Length ≤ 2 ^ 63 - 1) :
    (∃ p, (WriteHeader (recording w) (s, []) h).1.2 = [p] ∧
      p.getD 0 0 / 16 % 8 = h.Rsv % 8 ∧
      ((p.getD 0 0).testBit 7 = true ↔ (h.Fin = true ∨ 8 ≤ h.Rsv % 16))) ∧
    (WriteHeader (recording w) (s, [])
        { h with Fin := false, Rsv := 8, OpCode := 1, Masked := false, Length := 0 }).1.2
      = [[0x81, 0x00]] := by
  have _ := hr
  constructor
  · obtain ⟨p, hp, hb⟩ := encode_head h h2
    have z : h.OpCode % 256 / 16 = 0 := by omega
    have hi : byte0 h / 16 = ((if h.Fin then 8 else 0) ||| h.Rsv % 16) := by
      rw [byte0_high, z]
      simp
    obtain ⟨m8, lt, ge⟩ := fin_rsv_bits h.Fin (h.Rsv % 16) (Nat.mod_lt _ (by norm_num))
    refine ⟨p, log_of_encode w s h p hp, ?_, ?_⟩
    · rw [hb, hi, m8]; omega
    · rw [hb, Nat.testBit_to_div_mod, decide_eq_true_iff, ← ge, ← hi]
      rw [← hi] at lt
      omega
  · apply log_of_encode
    rw [encode_small _ (by norm_num)]
    simp [byte0, byteOfInt, bit0]

theorem Rsv_not_masked_witness :
    (3 : Nat) ≤ 15 ∧ (0xFF : Nat) ≤ 255 ∧ (200 : Int) ≤ 2 ^ 63 - 1 ∧
    ∃ p, (WriteHeader (recording okSink) ((), [])
            ⟨false, 0xFF, 3, false, ⟨0, 0, 0, 0⟩, 200⟩).1.2 = [p] ∧
      p.getD 0 0 / 16 % 8 = 0xFF % 8 ∧
      ((p.getD 0 0).testBit 7 = true ↔ (false = true ∨ 8 ≤ 0xFF % 16)) :=
  ⟨by decide, by decide, by decide,
    (Rsv_not_masked okSink () ⟨false, 0xFF, 3, false, ⟨0, 0, 0, 0⟩, 200⟩
      (by decide) (by decide) (by decide)).1⟩

/-- C18: the header encoding is self-delimiting: for every header with
`0 ≤ Length ≤ 2^63 - 1`, the number of bytes `WriteHeader` writes is determined
by byte 1 of the output alone, namely `2 + e + k` with `e = 2` if
`byte1 AND 0x7F = 126`, `e = 8` if it is 127, `e = 0` otherwise, and `k = 4` if
bit 7 of byte 1 is set, else 0; so no valid header encoding is a proper prefix
of another valid header encoding. -/
theorem self_delimiting {σ : Type} (w : Writer σ) (s : σ) (h g : Header)
    (h0 : 0 ≤ h.Length) (h2 : h.Length ≤ 2 ^ 63 - 1)
    (g0 : 0 ≤ g.Length) (g2 : g.Length ≤ 2 ^ 63 - 1) :
    ∃ p q, (WriteHeader (recording w) (s, []) h).1.2 = [p] ∧
      (WriteHeader (recording w) (s, []) g).1.2 = [q] ∧
      p.length = wireSize (p.getD 1 0) ∧
      (p <+: q → p = q) := by
  obtain ⟨p, hp, lp, p2⟩ := encode_wireSize h h0 h2
  obtain ⟨q, hq, lq, _⟩ := encode_wireSize g g0 g2
  refine ⟨p, q, log_of_encode w s h p hp, log_of_encode w s g q hq, lp, fun pre => ?_⟩
  apply pre.eq_of_length
  obtain ⟨t, ht⟩ := pre
  have b : q.getD 1 0 = p.getD 1 0 := by
    rw [← ht, List.getD_append _ _ _ _ (by omega)]
  rw [lp, lq, b]

theorem self_delimiting_witness :
    (0 : Int) ≤ 5 ∧ (5 : Int) ≤ 2 ^ 63 - 1 ∧ (0 : Int) ≤ 70000 ∧ (70000 : Int) ≤ 2 ^ 63 - 1 ∧
    ∃ p q, (WriteHeader (recording okSink) ((), [])
              ⟨true, 0, 1, false, ⟨0, 0, 0, 0⟩, 5⟩).1.2 = [p] ∧
      (WriteHeader (recording okSink) ((), [])
              ⟨true, 0, 1, true, ⟨1, 2, 3, 4⟩, 70000⟩).1.2 = [q] ∧
      p.length = wireSize (p.getD 1 0) ∧
      (p <+: q → p = q) :=
  ⟨by decide, by decide, by decide, by decide,
    self_delimiting okSink () ⟨true, 0, 1, false, ⟨0, 0, 0, 0⟩, 5⟩
      ⟨true, 0, 1, true, ⟨1, 2, 3, 4⟩, 70000⟩ (by decide) (by decide) (by decide) (by decide)⟩

/-- C19: `WriteHeader` always emits the minimal length encoding: for every
header with `0 ≤ Length ≤ 2^63 - 1` the one write has at least 2 bytes, and
bits 6-0 of byte 1 are at most 125 exactly when `Length ≤ 125` (then they equal
`Length`), equal 126 exactly when `125 < Length ≤ 65535` and equal 127 exactly
when `65535 < Length`.  If they equal 126, bytes 2-3 are written and their
16-bit big-endian value is `Length` and at least 126; if they equal 127, bytes
2-9 are written, their 64-bit big-endian value is `Length` and at least 65536,
and its most significant bit (bit 7 of byte 2) is 0. -/
theorem canonical_length {σ : Type} (w : Writer σ) (s : σ) (h : Header)
    (h0 : 0 ≤ h.Length) (h2 : h.Length ≤ 2 ^ 63 - 1) :
    ∃ p, (WriteHeader (recording w) (s, []) h).1.2 = [p] ∧
      2 ≤ p.length ∧
      (p.getD 1 0 % 128 ≤ 125 ↔ h.Length ≤ 125) ∧
      (h.Length ≤ 125 → ((p.getD 1 0 % 128 : Nat) : Int) = h.Length) ∧
      (p.getD 1 0 % 128 = 126 ↔ (125 < h.Length ∧ h.Length ≤ 65535)) ∧
      (p.getD 1 0 % 128 = 127 ↔ 65535 < h.Length) ∧
      (p.getD 1 0 % 128 = 126 →
        4 ≤ p.length ∧
        ((256 * p.getD 2 0 + p.getD 3 0 : Nat) : Int) = h.Length ∧
        126 ≤ 256 * p.getD 2 0 + p.getD 3 0) ∧
      (p.getD 1 0 % 128 = 127 →
        10 ≤ p.length ∧ ((p.drop 2).take 8).length = 8 ∧
        (beValue ((p.drop 2).take 8) : Int) = h.Length ∧
        65536 ≤ beValue ((p.drop 2).take 8) ∧ (p.getD 2 0).testBit 7 = false) := by
  obtain ⟨p, hp, hlen, _, _, t1, t2, t3⟩ := encode_layout h h0 h2
  rw [HeaderSize_eq h h2] at hlen
  have l2 : 2 ≤ p.length := by split_ifs at hlen <;> omega
  refine ⟨p, log_of_encode w s h p hp, l2, ?_⟩
  by_cases a : h.Length ≤ 125
  · have c := (t1 a).1
    exact ⟨⟨fun _ => a, fun _ => by omega⟩, fun _ => c,
      ⟨fun d => by omega, fun d => by omega⟩, ⟨fun d => by omega, fun d => by omega⟩,
      fun d => by omega, fun d => by omega⟩
  · by_cases b : h.Length ≤ 65535
    · obtain ⟨c, v, _, _⟩ := t2 (by omega) b
      have l4 : 4 ≤ p.length := by split_ifs at hlen <;> omega
      exact ⟨⟨fun d => by omega, fun d => absurd d a⟩, fun d => absurd d a,
        ⟨fun _ => ⟨by omega, b⟩, fun _ => c⟩, ⟨fun d => by omega, fun d => by omega⟩,
        fun _ => ⟨l4, v, by omega⟩, fun d => by omega⟩
    · obtain ⟨c, v, top, _⟩ := t3 (by omega)
      have l10 : 10 ≤ p.length := by split_ifs at hlen <;> omega
      have l8 : ((p.drop 2).take 8).length = 8 := by
        rw [List.length_take, List.length_drop]; omega
      have tb : (p.getD 2 0).testBit 7 = false := by
        rw [testBit7, decide_eq_false_iff_not]
        omega
      exact ⟨⟨fun d => by omega, fun d => absurd d a⟩, fun d => absurd d a,
        ⟨fun d => by omega, fun d => absurd d.2 b⟩, ⟨fun _ => by omega, fun _ => c⟩,
        fun d => by omega, fun _ => ⟨l10, l8, v, by omega, tb⟩⟩

theorem canonical_length_witness :
    (0 : Int) ≤ 126 ∧ (126 : Int) ≤ 2 ^ 63 - 1 ∧
    ∃ p, (WriteHeader (recording okSink) ((), [])
            ⟨true, 0, 2, false, ⟨0, 0, 0, 0⟩, 126⟩).1.2 = [p] ∧
      p.getD 1 0 % 128 = 126 ∧ 4 ≤ p.length ∧
      ((256 * p.getD 2 0 + p.getD 3 0 : Nat) : Int) = 126 ∧
      126 ≤ 256 * p.getD 2 0 + p.getD 3 0 := by
  obtain ⟨p, hp, _, _, _, c, _, d, _⟩ :=
    canonical_length okSink () ⟨true, 0, 2, false, ⟨0, 0, 0, 0⟩, 126⟩ (by decide) (by decide)
  have e := c.mpr ⟨by decide, by decide⟩
  exact ⟨by decide, by decide, p, hp, e, (d e).1, (d e).2.1, (d e).2.2⟩

/-- C17: the header encoding is injective on well-formed headers: for two
headers with `Rsv` in 0..7, `OpCode` in 0..15 and `0 ≤ Length ≤ 2^63 - 1`, if
`WriteHeader` writes the same bytes for both then they agree on `Fin`, `Rsv`,
`OpCode`, `Masked`, `Length` and (when masked) `Mask`; and the reference
decoder of the wire format recovers the header from its encoding (with the
zero key in place of an unused `Mask`). -/
theorem encoding_injective {σ : Type} (w : Writer σ) (s : σ) (h g : Header)
    (hr : h.Rsv ≤ 7) (ho : h.OpCode ≤ 15) (h0 : 0 ≤ h.Length) (h2 : h.Length ≤ 2 ^ 63 - 1)
    (gr : g.Rsv ≤ 7) (go : g.OpCode ≤ 15) (g0 : 0 ≤ g.Length) (g2 : g.Length ≤ 2 ^ 63 - 1) :
    (∃ p, (WriteHeader (recording w) (s, []) h).1.2 = [p] ∧
      refDecode p = { h with Mask := if h.Masked then h.Mask else ⟨0, 0, 0, 0⟩ }) ∧
    ((WriteHeader (recording w) (s, []) h).1.2 = (WriteHeader (recording w) (s, []) g).1.2 →
      h.Fin = g.Fin ∧ h.Rsv = g.Rsv ∧ h.OpCode = g.OpCode ∧ h.Masked = g.Masked ∧
      h.Length = g.Length ∧ (h.Masked = true → h.Mask = g.Mask)) := by
  obtain ⟨p, hp, dp⟩ := refDecode_encode h hr ho h0 h2
  obtain ⟨q, hq, dq⟩ := refDecode_encode g gr go g0 g2
  have lp := log_of_encode w s h p hp
  have lq := log_of_encode w s g q hq
  refine ⟨⟨p, lp, dp⟩, fun same => ?_⟩
  rw [lp, lq] at same
  have e : p = q := List.head_eq_of_cons_eq same
  rw [e, dq] at dp
  obtain ⟨f, r, o, m, k, l⟩ := h
  obtain ⟨f', r', o', m', k', l'⟩ := g
  simp only [Header.mk.injEq] at dp
  obtain ⟨a1, a2, a3, a4, a5, a6⟩ := dp
  refine ⟨a1.symm, a2.symm, a3.symm, a4.symm, a6.symm, fun t => ?_⟩
  simp only at t
  rw [a4, t] at a5
  simpa using a5.symm

theorem encoding_injective_witness :
    (3 : Nat) ≤ 7 ∧ (9 : Nat) ≤ 15 ∧ (0 : Int) ≤ 70000 ∧ (70000 : Int) ≤ 2 ^ 63 - 1 ∧
    (0 : Nat) ≤ 7 ∧ (1 : Nat) ≤ 15 ∧ (0 : Int) ≤ 200 ∧ (200 : Int) ≤ 2 ^ 63 - 1 ∧
    ∃ p, (WriteHeader (recording okSink) ((), [])
            ⟨true, 3, 9, true, ⟨1, 2, 3, 4⟩, 70000⟩).1.2 = [p] ∧
      refDecode p = ⟨true, 3, 9, true, ⟨1, 2, 3, 4⟩, 70000⟩ :=
  ⟨by decide, by decide, by decide, by decide, by decide, by decide, by decide, by decide,
    (encoding_injective okSink () ⟨true, 3, 9, true, ⟨1, 2, 3, 4⟩, 70000⟩
      ⟨false, 0, 1, false, ⟨0, 0, 0, 0⟩, 200⟩
      (by decide) (by decide) (by decide) (by decide)
      (by decide) (by decide) (by decide) (by decide)).1⟩

end ws
